import Mathlib

/-!
Shallow embedding of the canvas-downloader program (src/main.rs) and proofs
of the specification claims about it.

The embedding covers:
* the static work-partitioning scheduler in `main` (lines 114-137);
* the crawl (`process_folders`, `process_files`) as pure state-passing
  functions over an inductive model of the remote folder tree, with an
  explicit trace of HTTP requests, log messages, created directories and
  initiation/completion events;
* the per-file download loop of a worker (lines 137-182), including the
  header-only size probe, content-length parsing, and chunked streaming.
-/

namespace CanvasDownloader

/-! ## Download scheduler partitioning (main.rs lines 114-137)

In the source:
  `num_worker_extra_work = files_to_download.len() % num_worker_threads`
  `min_work = files_to_download.len() / num_worker_threads`
and worker `i` receives `min_work + (if i < num_worker_extra_work then 1 else 0)`
items, with slice starts accumulated from 0. -/

/-- Work handed to worker `i`: `min_work` plus one if `i < n % w`,
mirroring `let mut work = min_work; if i < num_worker_extra_work { work += 1 }`. -/
def workOf (n w i : Nat) : Nat :=
  n / w + (if i < n % w then 1 else 0)

/-- The accumulated `start` variable at the beginning of iteration `i` of the
`for i in 0..num_worker_threads` loop (`start = work_end` after each round). -/
def startOf (n w : Nat) : Nat → Nat
  | 0 => 0
  | i + 1 => startOf n w i + workOf n w i

/-- The `(work_start, work_end)` pairs handed to the spawned workers, in order. -/
def slices (n w : Nat) : List (Nat × Nat) :=
  (List.range w).map (fun i => (startOf n w i, startOf n w i + workOf n w i))

theorem startOf_closed (n w : Nat) : ∀ i, startOf n w i = i * (n / w) + min i (n % w) := by
  intro i
  induction i with
  | zero => simp [startOf]
  | succ i ih =>
      simp only [startOf, ih, workOf]
      rcases Nat.lt_or_ge i (n % w) with h | h
      · simp only [if_pos h]
        have h1 : min i (n % w) = i := Nat.min_eq_left (Nat.le_of_lt h)
        have h2 : min (i + 1) (n % w) = i + 1 := Nat.min_eq_left h
        rw [h1, h2]; ring
      · simp only [if_neg (Nat.not_lt.mpr h)]
        have h1 : min i (n % w) = n % w := Nat.min_eq_right h
        have h2 : min (i + 1) (n % w) = n % w := Nat.min_eq_right (Nat.le_succ_of_le h)
        rw [h1, h2]; ring

theorem startOf_total (n w : Nat) (hw : 1 ≤ w) : startOf n w w = n := by
  rw [startOf_closed]
  have hlt : n % w < w := Nat.mod_lt _ hw
  rw [Nat.min_eq_right (Nat.le_of_lt hlt)]
  have := Nat.div_add_mod n w
  omega

theorem startOf_mono (n w : Nat) : ∀ {i j : Nat}, i ≤ j → startOf n w i ≤ startOf n w j := by
  intro i j h
  induction j with
  | zero => simp_all
  | succ j ih =>
      rcases Nat.lt_or_ge i (j + 1) with h' | h'
      · exact Nat.le_trans (ih (Nat.lt_succ_iff.mp h')) (Nat.le_add_right _ _)
      · have : i = j + 1 := Nat.le_antisymm h h'
        simp [this]

/-- Every index below `n` falls in some slice below `m`, provided
`n ≤ startOf n w m`. -/
theorem slice_cover_aux (n w : Nat) :
    ∀ m k, k < startOf n w m → ∃ i, i < m ∧ startOf n w i ≤ k ∧ k < startOf n w (i + 1) := by
  intro m
  induction m with
  | zero => intro k hk; simp [startOf] at hk
  | succ m ih =>
      intro k hk
      rcases Nat.lt_or_ge k (startOf n w m) with h | h
      · obtain ⟨i, hi, h1, h2⟩ := ih k h
        exact ⟨i, Nat.lt_succ_of_lt hi, h1, h2⟩
      · exact ⟨m, Nat.lt_succ_self m, h, hk⟩

/-! ## Crawl model (process_folders / process_files, main.rs lines 196-270)

Local paths are modelled as lists of path components; `PathBuf::join` with a
sanitized (separator-free) component appends one component.  The external
`sanitize_filename::sanitize` collaborator and the filesystem existence
checks are parameters of the environment. -/

abbrev LocalPath := List String

def pathJoin (p : LocalPath) (component : String) : LocalPath := p ++ [component]

/-- `canvas::File` after deserialization and filepath resolution. -/
structure CanvasFile where
  id : Nat
  folder_id : Nat
  filename : String
  size : Nat
  url : String
  filepath : LocalPath
deriving Repr, DecidableEq

/-- `canvas::File` as it arrives from the file-listing endpoint
(`filepath` is `#[serde(skip)]`, still empty). -/
structure FileMeta where
  id : Nat
  folder_id : Nat
  filename : String
  size : Nat
  url : String
deriving Repr, DecidableEq

inductive Method where
  | get
  | head
deriving Repr, DecidableEq

/-- One HTTP request as issued by the program; `bearer` is `some token`
exactly when the source calls `.bearer_auth(token)` on the builder. -/
structure Request where
  method : Method
  url : String
  bearer : Option String
deriving Repr, DecidableEq

/-- One `println!` diagnostic from a decode failure.  The source formats
`"Failed to deserialize {folders|files} at link:{}, path:{}"`, so an entry
records which listing failed, the offending link and the local parent path. -/
structure LogEntry where
  isFolderListing : Bool
  link : String
  path : LocalPath
deriving Repr, DecidableEq

/-- Initiation/completion markers for the two sub-tasks launched for each
visited folder (the `process_files(..).await` and `process_folders(..).await`
calls inside the folder loop). -/
inductive Event where
  | filesStart (link : String)
  | filesEnd (link : String)
  | foldersStart (link : String)
  | foldersEnd (link : String)
deriving Repr, DecidableEq

/-- Observable crawl state: the shared registry (`files_to_download`),
stdout diagnostics, directories created, sub-task events and HTTP requests. -/
structure CrawlState where
  registry : List CanvasFile
  log : List LogEntry
  createdDirs : List LocalPath
  events : List Event
  requests : List Request
deriving Repr, DecidableEq

/-- Result of deserializing a file-listing response body
(`.json::<Vec<canvas::File>>()`). -/
inductive FilesListing where
  | ok (files : List FileMeta)
  | decodeErr (msg : String)
deriving Repr

mutual
/-- One folder as returned by a folder listing, together with what the
remote serves at its `files_url` and `folders_url`. -/
inductive FolderNode where
  | mk (id : Nat) (name : String) (foldersUrl : String) (filesUrl : String)
      (parentFolderId : Option Nat) (files : FilesListing) (subfolders : FoldersListing)

/-- Result of deserializing a folder-listing response body
(`.json::<Vec<canvas::Folder>>()`). -/
inductive FoldersListing where
  | ok (folders : FolderList)
  | decodeErr (msg : String)

/-- List of sibling folders returned by one listing. -/
inductive FolderList where
  | nil
  | cons (f : FolderNode) (rest : FolderList)
end

/-- Crawl environment: the bearer token and the external collaborators
(`sanitize_filename::sanitize`, `Path::exists` for files and directories). -/
structure Env where
  canvasToken : String
  sanitize : String → String
  fileExists : LocalPath → Bool
  dirExists : LocalPath → Bool

/-- `if !folder_path.exists() { std::fs::create_dir(&folder_path) }`. -/
def ensureDir (env : Env) (p : LocalPath) (st : CrawlState) : CrawlState :=
  if env.dirExists p then st
  else { st with createdDirs := st.createdDirs ++ [p] }

/-- The local directory chosen for a folder: the root-folder de-nesting rule
of main.rs lines 214-218 (`if folder.parent_folder_id.is_some()`). -/
def nodeLocalPath (env : Env) (parentPath : LocalPath) (f : FolderNode) : LocalPath :=
  match f with
  | .mk _ name _ _ parentFolderId _ _ =>
      if parentFolderId.isSome then pathJoin parentPath (env.sanitize name)
      else parentPath

/-- Resolve one fetched file: sanitize the filename and join it onto the
parent folder path (main.rs lines 253-256). -/
def resolveFile (env : Env) (parentPath : LocalPath) (f : FileMeta) : CanvasFile :=
  { id := f.id, folder_id := f.folder_id, filename := f.filename, size := f.size,
    url := f.url, filepath := pathJoin parentPath (env.sanitize f.filename) }

/-- `process_files` (main.rs lines 242-270): issue the authenticated GET, and
on a successful decode resolve filepaths, drop files that already exist on
disk, and append the survivors to the shared registry in one locked append;
on a decode failure log the link and parent path and leave the registry
untouched. -/
def processFiles (env : Env) (link : String) (parentPath : LocalPath)
    (listing : FilesListing) (st : CrawlState) : CrawlState :=
  let st := { st with requests := st.requests ++ [(⟨Method.get, link, some env.canvasToken⟩ : Request)] }
  match listing with
  | .ok files =>
      let resolved := files.map (resolveFile env parentPath)
      let filtered := resolved.filter (fun f => !env.fileExists f.filepath)
      { st with registry := st.registry ++ filtered }
  | .decodeErr _ =>
      { st with log := st.log ++ [(⟨false, link, parentPath⟩ : LogEntry)] }

mutual
/-- `process_folders` (main.rs lines 196-240): issue the authenticated GET;
on success walk the returned folders, on decode failure log link and path. -/
def processFolders (env : Env) (link : String) (parentPath : LocalPath)
    (listing : FoldersListing) (st : CrawlState) : CrawlState :=
  let st1 := { st with requests := st.requests ++ [(⟨Method.get, link, some env.canvasToken⟩ : Request)] }
  match listing with
  | .ok folders => processFolderList env parentPath folders st1
  | .decodeErr _ => { st1 with log := st1.log ++ [(⟨true, link, parentPath⟩ : LogEntry)] }

/-- The `for folder in folders` loop body applied to each sibling in order. -/
def processFolderList (env : Env) (parentPath : LocalPath)
    (folders : FolderList) (st : CrawlState) : CrawlState :=
  match folders with
  | .nil => st
  | .cons f rest => processFolderList env parentPath rest (processFolderNode env parentPath f st)

/-- One iteration of the folder loop: pick the local path, ensure the
directory, then `process_files(..).await` followed by
`process_folders(..).await` on the child links. -/
def processFolderNode (env : Env) (parentPath : LocalPath)
    (f : FolderNode) (st : CrawlState) : CrawlState :=
  match f with
  | .mk _ _ foldersUrl filesUrl _ files subfolders =>
      let folderPath := nodeLocalPath env parentPath f
      let st := ensureDir env folderPath st
      let st := { st with events := st.events ++ [Event.filesStart filesUrl] }
      let st := processFiles env filesUrl folderPath files st
      let st := { st with events := st.events ++ [Event.filesEnd filesUrl, Event.foldersStart foldersUrl] }
      let st := processFolders env foldersUrl folderPath subfolders st
      { st with events := st.events ++ [Event.foldersEnd foldersUrl] }
end

/-! ## Download worker (main.rs lines 136-182)

Each spawned worker walks its slice sequentially.  Per file it issues a
header-only request WITHOUT bearer auth (`client.head(..).send()`), reads
`content-length` on success, creates the local file, then issues the
authenticated GET and streams chunks, incrementing the bar per chunk. -/

/-- Rust's `str::parse::<u64>()`: an optional leading `+`, then one or more
ASCII digits, value below `2^64`; anything else is `Err`. -/
def parseU64 (s : String) : Option Nat :=
  let cs := match s.data with
    | '+' :: rest => rest
    | cs => cs
  if cs.isEmpty then none
  else if cs.all (fun c => c.isDigit) then
    let v := cs.foldl (fun acc c => acc * 10 + (c.toNat - '0'.toNat)) 0
    if v < 2 ^ 64 then some v else none
  else none

/-- A header-only response: its status success flag and the value of the
`content-length` header when present (as the string `to_str` would yield). -/
structure HeadResponse where
  success : Bool
  contentLength : Option String
deriving Repr, DecidableEq

/-- main.rs lines 145-149: `headers().get(CONTENT_LENGTH).and_then(to_str.ok)
.and_then(parse.ok).unwrap_or(0)`. -/
def downloadSizeOf (r : HeadResponse) : Nat :=
  ((r.contentLength.bind parseU64).getD 0)

/-- Download-phase environment: the token, the remote's response to a HEAD
on each url, and the chunk stream a GET on each url yields. -/
structure DownloadEnv where
  canvasToken : String
  headResp : String → HeadResponse
  body : String → List (List Nat)

/-- One per-file progress bar: its total (from the HEAD size), the bytes it
was incremented by, and whether `finish()` was called. -/
structure ProgressBar where
  total : Nat
  progressed : Nat
  finished : Bool
deriving Repr, DecidableEq

/-- Observable worker state: requests issued, "Failed to download {name}"
messages, files written (path and byte content), and progress bars. -/
structure WorkerState where
  requests : List Request
  failures : List String
  written : List (LocalPath × List Nat)
  bars : List ProgressBar
deriving Repr, DecidableEq

/-- The loop body of a worker (main.rs lines 137-181) for one file:
HEAD without auth; on non-success print the failure and `continue`;
otherwise build the bar from `content-length`, create the file, GET with
bearer auth and stream chunks, writing each and incrementing by its length. -/
def downloadFile (env : DownloadEnv) (f : CanvasFile) (st : WorkerState) : WorkerState :=
  let st := { st with requests := st.requests ++ [(⟨Method.head, f.url, none⟩ : Request)] }
  let resp := env.headResp f.url
  if resp.success then
    let size := downloadSizeOf resp
    let st := { st with requests := st.requests ++ [(⟨Method.get, f.url, some env.canvasToken⟩ : Request)] }
    let chunks := env.body f.url
    let streamed := chunks.foldl
      (fun (acc : List Nat × Nat) chunk => (acc.1 ++ chunk, acc.2 + chunk.length)) ([], 0)
    { st with
        written := st.written ++ [(f.filepath, streamed.1)],
        bars := st.bars ++ [(⟨size, streamed.2, true⟩ : ProgressBar)] }
  else
    { st with failures := st.failures ++ [f.filename] }

/-- A worker's whole slice, processed sequentially in order. -/
def runWorker (env : DownloadEnv) (files : List CanvasFile) (st : WorkerState) : WorkerState :=
  files.foldl (fun s f => downloadFile env f s) st

/-- The account-level course-listing request of main.rs lines 70-71
(`client.get(&courses_link).bearer_auth(&canvas_token)`). -/
def coursesRequest (canvasToken coursesLink : String) : Request :=
  ⟨Method.get, coursesLink, some canvasToken⟩

/-! ## Claim theorems -/

/-- C1: for every file count `n ≥ 0` and worker count `w ≥ 1`, the scheduler
assigns contiguous slices: base size `n / w`, the first `n % w` workers get
one extra item, slices start at index 0 in increasing contiguous order, are
non-overlapping, sizes differ by at most 1, and they cover `[0, n)` exactly
once; in particular `n = 7, w = 3` yields `[0,3), [3,5), [5,7)`. -/
theorem C1_scheduler_partition (n w : Nat) (hw : 1 ≤ w) :
    (∀ i, workOf n w i = n / w + (if i < n % w then 1 else 0)) ∧
    startOf n w 0 = 0 ∧
    (∀ i, startOf n w (i + 1) = startOf n w i + workOf n w i) ∧
    (∀ k, k < n ↔ ∃ i, i < w ∧ startOf n w i ≤ k ∧ k < startOf n w i + workOf n w i) ∧
    (∀ i j k, i < w → j < w →
      startOf n w i ≤ k → k < startOf n w i + workOf n w i →
      startOf n w j ≤ k → k < startOf n w j + workOf n w j → i = j) ∧
    (∀ i j, workOf n w i ≤ workOf n w j + 1) ∧
    slices 7 3 = [(0, 3), (3, 5), (5, 7)] := by
  refine ⟨fun i => rfl, rfl, fun i => rfl, ?_, ?_, ?_, by decide⟩
  · intro k
    constructor
    · intro hk
      have hk' : k < startOf n w w := by rw [startOf_total n w hw]; exact hk
      obtain ⟨i, hi, h1, h2⟩ := slice_cover_aux n w w k hk'
      exact ⟨i, hi, h1, by simpa [startOf] using h2⟩
    · rintro ⟨i, hi, _, h2⟩
      have h3 : k < startOf n w (i + 1) := by simpa [startOf] using h2
      have h4 : startOf n w (i + 1) ≤ startOf n w w := startOf_mono n w hi
      have h5 := startOf_total n w hw
      omega
  · intro i j k hi hj h1 h2 h3 h4
    by_contra hne
    rcases Nat.lt_or_ge i j with hij | hij
    · have : startOf n w (i + 1) ≤ startOf n w j := startOf_mono n w hij
      simp only [startOf] at this
      omega
    · have hji : j < i := Nat.lt_of_le_of_ne hij (fun h => hne h.symm)
      have : startOf n w (j + 1) ≤ startOf n w i := startOf_mono n w hji
      simp only [startOf] at this
      omega
  · intro i j
    unfold workOf
    split <;> split <;> omega

/-- Witness for C1 at `n = 7`, `w = 3`. -/
theorem C1_scheduler_partition_witness :
    1 ≤ 3 ∧ slices 7 3 = [(0, 3), (3, 5), (5, 7)] :=
  ⟨by decide, (C1_scheduler_partition 7 3 (by decide)).2.2.2.2.2.2⟩

/-- C10: every index a worker dereferences into the finalized file list lies
strictly below the list's length, so `files_to_download.get(i)` inside the
worker loop never yields an absent element. -/
theorem C10_worker_index_in_bounds (files : List CanvasFile) (w i k : Nat)
    (hw : 1 ≤ w) (hi : i < w)
    (h1 : startOf files.length w i ≤ k)
    (h2 : k < startOf files.length w i + workOf files.length w i) :
    k < files.length ∧ (files[k]?).isSome := by
  have h3 : k < startOf files.length w (i + 1) := by simpa [startOf] using h2
  have h4 : startOf files.length w (i + 1) ≤ startOf files.length w w :=
    startOf_mono files.length w hi
  have h5 := startOf_total files.length w hw
  have hk : k < files.length := by omega
  exact ⟨hk, by simp [List.getElem?_eq_getElem hk]⟩

/-- Witness for C10 on a one-element file list with one worker. -/
theorem C10_worker_index_in_bounds_witness :
    (1 ≤ 1 ∧ 0 < 1 ∧ startOf 1 1 0 ≤ 0 ∧ 0 < startOf 1 1 0 + workOf 1 1 0) ∧
    (0 < ([⟨1, 2, "a", 100, "u", ["a"]⟩] : List CanvasFile).length ∧
      (([⟨1, 2, "a", 100, "u", ["a"]⟩] : List CanvasFile)[0]?).isSome) :=
  ⟨⟨by decide, by decide, by decide, by decide⟩,
   C10_worker_index_in_bounds [⟨1, 2, "a", 100, "u", ["a"]⟩] 1 0 0
     (by decide) (by decide) (by decide) (by decide)⟩

/-- C2: in `process_files`, every fetched file's local filepath is the
folder's local path joined with the sanitized filename, the registry after
the call is the old registry with the filtered batch appended in one block
(the single locked append), and a file of the batch lands in the appended
block if and only if no file already exists at its computed local path. -/
theorem C2_files_filtered_by_existence (env : Env) (link : String)
    (parentPath : LocalPath) (files : List FileMeta) (st : CrawlState) :
    (∀ f ∈ files, (resolveFile env parentPath f).filepath
        = pathJoin parentPath (env.sanitize f.filename)) ∧
    (processFiles env link parentPath (.ok files) st).registry
      = st.registry
        ++ (files.map (resolveFile env parentPath)).filter (fun f => !env.fileExists f.filepath) ∧
    (∀ g ∈ files.map (resolveFile env parentPath),
      g ∈ (processFiles env link parentPath (.ok files) st).registry.drop st.registry.length
        ↔ env.fileExists g.filepath = false) := by
  refine ⟨fun f _ => rfl, rfl, ?_⟩
  intro g hg
  show g ∈ (st.registry ++ _).drop st.registry.length ↔ _
  rw [List.drop_left]
  simp [List.mem_filter, hg]

/-- C3: a folder with no parent maps to the given parent directory itself
(the course's directory), a folder with a parent maps to
`parent_path/sanitize(name)`, the parentless path is never the nested
root-named path, and ensuring the directory of a parentless folder only ever
creates the parent directory itself. -/
theorem C3_root_folder_rule (env : Env) (parentPath : LocalPath) (id : Nat)
    (name foldersUrl filesUrl : String) (p : Nat) (files : FilesListing)
    (subs : FoldersListing) (st : CrawlState) :
    nodeLocalPath env parentPath (.mk id name foldersUrl filesUrl none files subs)
      = parentPath ∧
    nodeLocalPath env parentPath (.mk id name foldersUrl filesUrl (some p) files subs)
      = pathJoin parentPath (env.sanitize name) ∧
    nodeLocalPath env parentPath (.mk id name foldersUrl filesUrl none files subs)
      ≠ pathJoin parentPath (env.sanitize name) ∧
    ((ensureDir env
        (nodeLocalPath env parentPath (.mk id name foldersUrl filesUrl none files subs))
        st).createdDirs = st.createdDirs ∨
      (ensureDir env
        (nodeLocalPath env parentPath (.mk id name foldersUrl filesUrl none files subs))
        st).createdDirs = st.createdDirs ++ [parentPath]) := by
  have hroot : nodeLocalPath env parentPath
      (.mk id name foldersUrl filesUrl none files subs) = parentPath := rfl
  refine ⟨hroot, rfl, ?_, ?_⟩
  · rw [hroot]
    intro h
    have := congrArg List.length h
    simp only [pathJoin, List.length_append, List.length_singleton] at this
    omega
  · rw [hroot]
    unfold ensureDir
    split
    · exact Or.inl rfl
    · exact Or.inr rfl

/-- C4: a decode failure of a folder or file listing logs an entry carrying
the offending link and local parent path, leaves the registry untouched, and
the sibling loop continues unconditionally past any folder, so the failure is
localized and the crawl does not abort. -/
theorem C4_decode_failure_localized (env : Env) (link : String)
    (parentPath : LocalPath) (msg : String) (st : CrawlState) :
    ((processFolders env link parentPath (.decodeErr msg) st).log
        = st.log ++ [(⟨true, link, parentPath⟩ : LogEntry)] ∧
      (processFolders env link parentPath (.decodeErr msg) st).registry = st.registry) ∧
    ((processFiles env link parentPath (.decodeErr msg) st).log
        = st.log ++ [(⟨false, link, parentPath⟩ : LogEntry)] ∧
      (processFiles env link parentPath (.decodeErr msg) st).registry = st.registry) ∧
    (∀ f rest, processFolderList env parentPath (.cons f rest) st
        = processFolderList env parentPath rest (processFolderNode env parentPath f st)) :=
  ⟨⟨rfl, rfl⟩, ⟨rfl, rfl⟩, fun _ _ => rfl⟩

/-! ### Helper lemmas for the download worker -/

theorem stream_foldl (chunks : List (List Nat)) (acc : List Nat) (p : Nat) :
    chunks.foldl (fun (a : List Nat × Nat) chunk => (a.1 ++ chunk, a.2 + chunk.length)) (acc, p)
      = (acc ++ chunks.flatten, p + (chunks.map List.length).sum) := by
  induction chunks generalizing acc p with
  | nil => simp
  | cons c cs ih => simp [ih, List.append_assoc, Nat.add_assoc]

theorem downloadFile_head_failed (env : DownloadEnv) (f : CanvasFile) (st : WorkerState)
    (h : (env.headResp f.url).success = false) :
    downloadFile env f st
      = { st with failures := st.failures ++ [f.filename],
                  requests := st.requests ++ [(⟨Method.head, f.url, none⟩ : Request)] } := by
  unfold downloadFile
  simp [h]

theorem downloadFile_head_ok (env : DownloadEnv) (f : CanvasFile) (st : WorkerState)
    (h : (env.headResp f.url).success = true) :
    downloadFile env f st
      = { st with
            requests := st.requests
              ++ [(⟨Method.head, f.url, none⟩ : Request),
                  (⟨Method.get, f.url, some env.canvasToken⟩ : Request)],
            written := st.written ++ [(f.filepath, (env.body f.url).flatten)],
            bars := st.bars
              ++ [(⟨downloadSizeOf (env.headResp f.url),
                    ((env.body f.url).map List.length).sum, true⟩ : ProgressBar)] } := by
  unfold downloadFile
  simp [h, stream_foldl]

/-- Sample inputs used by the closed witnesses and counterexamples below. -/
def sampleFile : CanvasFile := ⟨1, 2, "a.pdf", 100, "u", ["CS101", "a.pdf"]⟩

def emptyWorker : WorkerState := ⟨[], [], [], []⟩

def sampleEnvFail : DownloadEnv := ⟨"tok", fun _ => ⟨false, none⟩, fun _ => []⟩

def sampleEnvOk : DownloadEnv := ⟨"tok", fun _ => ⟨true, some "100"⟩, fun _ => [[1, 2], [3]]⟩

/-- C6: when the header-only request for a file returns a non-success status,
the worker records the per-file failure message and moves on: the file is
skipped (nothing written, no bar, no GET issued) and the rest of the slice is
still processed from the same state plus that one failure. -/
theorem C6_head_failure_skips_file (env : DownloadEnv) (f : CanvasFile)
    (rest : List CanvasFile) (st : WorkerState)
    (h : (env.headResp f.url).success = false) :
    runWorker env (f :: rest) st
      = runWorker env rest
          { st with failures := st.failures ++ [f.filename],
                    requests := st.requests ++ [(⟨Method.head, f.url, none⟩ : Request)] } ∧
    (downloadFile env f st).written = st.written ∧
    (downloadFile env f st).bars = st.bars ∧
    (downloadFile env f st).failures = st.failures ++ [f.filename] ∧
    (downloadFile env f st).requests
      = st.requests ++ [(⟨Method.head, f.url, none⟩ : Request)] := by
  have hd := downloadFile_head_failed env f st h
  refine ⟨?_, by rw [hd], by rw [hd], by rw [hd], by rw [hd]⟩
  show runWorker env rest (downloadFile env f st) = _
  rw [hd]

/-- Witness for C6: a HEAD that reports failure on a concrete file. -/
theorem C6_head_failure_skips_file_witness :
    (sampleEnvFail.headResp sampleFile.url).success = false ∧
    (downloadFile sampleEnvFail sampleFile emptyWorker).failures
      = emptyWorker.failures ++ [sampleFile.filename] :=
  ⟨rfl, (C6_head_failure_skips_file sampleEnvFail sampleFile [] emptyWorker rfl).2.2.2.1⟩

/-- C7: for a successful header-only response, the progress-bar total is the
parsed `content-length` value when the header is present and parses as an
unsigned integer, and zero when absent or unparseable; either way the
download still proceeds normally (no error path is taken). -/
theorem C7_expected_size_from_content_length (env : DownloadEnv) (f : CanvasFile)
    (st : WorkerState) (h : (env.headResp f.url).success = true) :
    (downloadFile env f st).bars
      = st.bars
        ++ [(⟨downloadSizeOf (env.headResp f.url),
              ((env.body f.url).map List.length).sum, true⟩ : ProgressBar)] ∧
    (∀ s v, (env.headResp f.url).contentLength = some s → parseU64 s = some v →
      downloadSizeOf (env.headResp f.url) = v) ∧
    ((env.headResp f.url).contentLength = none → downloadSizeOf (env.headResp f.url) = 0) ∧
    (∀ s, (env.headResp f.url).contentLength = some s → parseU64 s = none →
      downloadSizeOf (env.headResp f.url) = 0) := by
  refine ⟨by rw [downloadFile_head_ok env f st h], ?_, ?_, ?_⟩
  · intro s v hs hv
    simp [downloadSizeOf, hs, hv]
  · intro hs
    simp [downloadSizeOf, hs]
  · intro s hs hv
    simp [downloadSizeOf, hs, hv]

/-- Witness for C7: a successful HEAD whose `content-length` is `"100"`. -/
theorem C7_expected_size_from_content_length_witness :
    (sampleEnvOk.headResp sampleFile.url).success = true ∧
    parseU64 "100" = some 100 ∧
    (downloadFile sampleEnvOk sampleFile emptyWorker).bars
      = emptyWorker.bars
        ++ [(⟨downloadSizeOf (sampleEnvOk.headResp sampleFile.url),
              ((sampleEnvOk.body sampleFile.url).map List.length).sum, true⟩ : ProgressBar)] :=
  ⟨rfl, by decide,
   (C7_expected_size_from_content_length sampleEnvOk sampleFile emptyWorker rfl).1⟩

/-- C8: for a file whose GET download completes, the cumulative progress
increments over the streamed chunks sum to exactly the number of bytes
written to the local file, which equals the final size of the written file. -/
theorem C8_progress_equals_bytes_written (env : DownloadEnv) (f : CanvasFile)
    (st : WorkerState) (h : (env.headResp f.url).success = true) :
    (downloadFile env f st).written = st.written ++ [(f.filepath, (env.body f.url).flatten)] ∧
    (downloadFile env f st).bars
      = st.bars
        ++ [(⟨downloadSizeOf (env.headResp f.url),
              ((env.body f.url).map List.length).sum, true⟩ : ProgressBar)] ∧
    ((env.body f.url).map List.length).sum = (env.body f.url).flatten.length := by
  refine ⟨by rw [downloadFile_head_ok env f st h], by rw [downloadFile_head_ok env f st h], ?_⟩
  exact (List.length_flatten _).symm

/-- Witness for C8: a two-chunk stream of sizes 2 and 1 on a concrete file. -/
theorem C8_progress_equals_bytes_written_witness :
    (sampleEnvOk.headResp sampleFile.url).success = true ∧
    (downloadFile sampleEnvOk sampleFile emptyWorker).written
      = emptyWorker.written ++ [(sampleFile.filepath, (sampleEnvOk.body sampleFile.url).flatten)] :=
  ⟨rfl, (C8_progress_equals_bytes_written sampleEnvOk sampleFile emptyWorker rfl).1⟩

/-! ### Crawl trace invariants

`AuthedExtends tok st st'` says a crawl step extends the event trace only at
the end and adds only authenticated GET requests. -/

def AuthedExtends (tok : String) (st st' : CrawlState) : Prop :=
  (∃ tail, st'.events = st.events ++ tail) ∧
  ∀ r ∈ st'.requests, r ∈ st.requests ∨ (r.method = Method.get ∧ r.bearer = some tok)

theorem authedExtends_refl (tok : String) (st : CrawlState) : AuthedExtends tok st st :=
  ⟨⟨[], by simp⟩, fun _ hr => Or.inl hr⟩

theorem authedExtends_trans {tok : String} {s1 s2 s3 : CrawlState}
    (h1 : AuthedExtends tok s1 s2) (h2 : AuthedExtends tok s2 s3) :
    AuthedExtends tok s1 s3 := by
  obtain ⟨⟨t1, he1⟩, hr1⟩ := h1
  obtain ⟨⟨t2, he2⟩, hr2⟩ := h2
  refine ⟨⟨t1 ++ t2, by rw [he2, he1, List.append_assoc]⟩, ?_⟩
  intro r hr
  rcases hr2 r hr with h | h
  · exact hr1 r h
  · exact Or.inr h

theorem authedExtends_addEvents (tok : String) (st : CrawlState) (es : List Event) :
    AuthedExtends tok st { st with events := st.events ++ es } :=
  ⟨⟨es, rfl⟩, fun _ hr => Or.inl hr⟩

theorem authedExtends_ensureDir (tok : String) (env : Env) (p : LocalPath)
    (st : CrawlState) : AuthedExtends tok st (ensureDir env p st) := by
  unfold ensureDir
  split
  · exact authedExtends_refl tok st
  · exact ⟨⟨[], by simp⟩, fun _ hr => Or.inl hr⟩

theorem processFiles_requests (env : Env) (l : String) (p : LocalPath)
    (lst : FilesListing) (st : CrawlState) :
    (processFiles env l p lst st).requests
      = st.requests ++ [(⟨Method.get, l, some env.canvasToken⟩ : Request)] := by
  cases lst <;> rfl

theorem processFiles_events (env : Env) (l : String) (p : LocalPath)
    (lst : FilesListing) (st : CrawlState) :
    (processFiles env l p lst st).events = st.events := by
  cases lst <;> rfl

theorem ensureDir_events (env : Env) (p : LocalPath) (st : CrawlState) :
    (ensureDir env p st).events = st.events := by
  unfold ensureDir
  split <;> rfl

theorem authedExtends_processFiles (env : Env) (l : String) (p : LocalPath)
    (lst : FilesListing) (st : CrawlState) :
    AuthedExtends env.canvasToken st (processFiles env l p lst st) := by
  refine ⟨⟨[], by rw [processFiles_events]; simp⟩, ?_⟩
  intro r hr
  rw [processFiles_requests] at hr
  rcases List.mem_append.mp hr with h | h
  · exact Or.inl h
  · right
    simp only [List.mem_singleton] at h
    subst h
    exact ⟨rfl, rfl⟩

theorem authedExtends_addAuthedGet (env : Env) (l : String) (st : CrawlState) :
    AuthedExtends env.canvasToken st
      { st with requests := st.requests ++ [(⟨Method.get, l, some env.canvasToken⟩ : Request)] } := by
  refine ⟨⟨[], by simp⟩, ?_⟩
  intro r hr
  rcases List.mem_append.mp hr with h | h
  · exact Or.inl h
  · right
    simp only [List.mem_singleton] at h
    subst h
    exact ⟨rfl, rfl⟩

mutual
theorem processFolders_authedExtends (env : Env) (l : String) (p : LocalPath)
    (lst : FoldersListing) (st : CrawlState) :
    AuthedExtends env.canvasToken st (processFolders env l p lst st) := by
  cases lst with
  | ok folders =>
      exact authedExtends_trans (authedExtends_addAuthedGet env l st)
        (processFolderList_authedExtends env p folders _)
  | decodeErr m =>
      refine ⟨⟨[], by simp [processFolders]⟩, ?_⟩
      intro r hr
      simp only [processFolders] at hr
      rcases List.mem_append.mp hr with h | h
      · exact Or.inl h
      · right
        simp only [List.mem_singleton] at h
        subst h
        exact ⟨rfl, rfl⟩

theorem processFolderList_authedExtends (env : Env) (p : LocalPath)
    (folders : FolderList) (st : CrawlState) :
    AuthedExtends env.canvasToken st (processFolderList env p folders st) := by
  cases folders with
  | nil => exact authedExtends_refl env.canvasToken st
  | cons f rest =>
      exact authedExtends_trans (processFolderNode_authedExtends env p f st)
        (processFolderList_authedExtends env p rest _)

theorem processFolderNode_authedExtends (env : Env) (p : LocalPath)
    (f : FolderNode) (st : CrawlState) :
    AuthedExtends env.canvasToken st (processFolderNode env p f st) := by
  cases f with
  | mk id name foldersUrl filesUrl pid files subs =>
      exact authedExtends_trans (authedExtends_ensureDir env.canvasToken env _ st)
        (authedExtends_trans (authedExtends_addEvents _ _ _)
          (authedExtends_trans (authedExtends_processFiles env filesUrl _ files _)
            (authedExtends_trans (authedExtends_addEvents _ _ _)
              (authedExtends_trans (processFolders_authedExtends env foldersUrl _ subs _)
                (authedExtends_addEvents _ _ _)))))
end

theorem downloadFile_requests_cases (env : DownloadEnv) (f : CanvasFile)
    (st : WorkerState) :
    (downloadFile env f st).requests
        = st.requests ++ [(⟨Method.head, f.url, none⟩ : Request)] ∨
    (downloadFile env f st).requests
        = st.requests
          ++ [(⟨Method.head, f.url, none⟩ : Request),
              (⟨Method.get, f.url, some env.canvasToken⟩ : Request)] := by
  cases hs : (env.headResp f.url).success with
  | false => exact Or.inl (by rw [downloadFile_head_failed env f st hs])
  | true => exact Or.inr (by rw [downloadFile_head_ok env f st hs])

/-- C5 counterexample: in the download worker the header-only size request is
built by `client.head(&canvas_file.url).send()` with no `.bearer_auth(..)`
call, so on a concrete file the issued HEAD request carries no bearer token
while the trace does include it — the claim that every issued request carries
bearer authentication is false. -/
theorem C5_counterexample_head_without_bearer :
    (⟨Method.head, sampleFile.url, none⟩ : Request)
      ∈ (downloadFile sampleEnvOk sampleFile emptyWorker).requests ∧
    ¬ ∀ r ∈ (downloadFile sampleEnvOk sampleFile emptyWorker).requests,
        r.bearer = some sampleEnvOk.canvasToken := by
  have hreq : (downloadFile sampleEnvOk sampleFile emptyWorker).requests
      = [(⟨Method.head, sampleFile.url, none⟩ : Request),
         (⟨Method.get, sampleFile.url, some "tok"⟩ : Request)] := by
    rw [downloadFile_head_ok sampleEnvOk sampleFile emptyWorker rfl]
    rfl
  constructor
  · rw [hreq]
    exact List.mem_cons_self _ _
  · intro hall
    have := hall (⟨Method.head, sampleFile.url, none⟩ : Request) (by rw [hreq]; exact List.mem_cons_self _ _)
    simp [sampleEnvOk] at this

/-- C5 amended: the course-listing request, every request issued by the crawl
(folder and file listings), and the worker's full GET download all carry
bearer authentication with the canvas token; the worker's header-only (HEAD)
size request is the single exception and carries no bearer token. -/
theorem C5_bearer_auth_on_all_but_head (env : Env) (l : String) (p : LocalPath)
    (lst : FoldersListing) (flst : FilesListing) (st : CrawlState)
    (denv : DownloadEnv) (f : CanvasFile) (ws : WorkerState) (tok clink : String) :
    (coursesRequest tok clink).bearer = some tok ∧
    (∀ r ∈ (processFolders env l p lst st).requests,
        r ∈ st.requests ∨ (r.method = Method.get ∧ r.bearer = some env.canvasToken)) ∧
    (∀ r ∈ (processFiles env l p flst st).requests,
        r ∈ st.requests ∨ (r.method = Method.get ∧ r.bearer = some env.canvasToken)) ∧
    (∀ r ∈ (downloadFile denv f ws).requests,
        r ∈ ws.requests ∨
          (r.method = Method.head ∧ r.bearer = none) ∨
          (r.method = Method.get ∧ r.bearer = some denv.canvasToken)) ∧
    (⟨Method.head, f.url, none⟩ : Request) ∈ (downloadFile denv f ws).requests := by
  refine ⟨rfl, (processFolders_authedExtends env l p lst st).2,
    (authedExtends_processFiles env l p flst st).2, ?_, ?_⟩
  · intro r hr
    rcases downloadFile_requests_cases denv f ws with hc | hc <;> rw [hc] at hr
    · rcases List.mem_append.mp hr with h | h
      · exact Or.inl h
      · simp only [List.mem_singleton] at h
        subst h
        exact Or.inr (Or.inl ⟨rfl, rfl⟩)
    · rcases List.mem_append.mp hr with h | h
      · exact Or.inl h
      · rcases List.mem_cons.mp h with h' | h'
        · subst h'
          exact Or.inr (Or.inl ⟨rfl, rfl⟩)
        · simp only [List.mem_singleton] at h'
          subst h'
          exact Or.inr (Or.inr ⟨rfl, rfl⟩)
  · rcases downloadFile_requests_cases denv f ws with hc | hc <;> rw [hc]
    · exact List.mem_append.mpr (Or.inr (List.mem_singleton.mpr rfl))
    · exact List.mem_append.mpr (Or.inr (List.mem_cons_self _ _))

/-- Sample crawl environment and folder tree for the closed C9 counterexample:
one folder whose file listing and subfolder listing are both non-empty. -/
def sampleCrawlEnv : Env := ⟨"tok", fun s => s, fun _ => false, fun _ => false⟩

def emptyCrawl : CrawlState := ⟨[], [], [], [], []⟩

def sampleNode : FolderNode :=
  .mk 10 "week1" "folders10" "files10" (some 1)
    (.ok [⟨5, 3, "notes.pdf", 7, "fileurl"⟩])
    (.ok (.cons (.mk 11 "sub" "folders11" "files11" (some 10) (.ok []) (.ok .nil)) .nil))

/-- C9 counterexample: on a concrete folder the crawl's event trace shows the
deeper folder traversal (`foldersStart`) beginning strictly after file
processing has already completed (`filesEnd`) — the two sub-tasks are run
sequentially (`process_files(..).await;` then `process_folders(..).await;`),
not initiated concurrently. -/
theorem C9_counterexample_sequential_initiation :
    (processFolderNode sampleCrawlEnv ["C"] sampleNode emptyCrawl).events
      = [Event.filesStart "files10", Event.filesEnd "files10",
         Event.foldersStart "folders10", Event.filesStart "files11",
         Event.filesEnd "files11", Event.foldersStart "folders11",
         Event.foldersEnd "folders11", Event.foldersEnd "folders10"] ∧
    ¬ ((processFolderNode sampleCrawlEnv ["C"] sampleNode emptyCrawl).events.indexOf
          (Event.foldersStart "folders10")
        ≤ (processFolderNode sampleCrawlEnv ["C"] sampleNode emptyCrawl).events.indexOf
          (Event.filesEnd "files10")) := by
  constructor
  · rfl
  · decide

/-- C9 amended: for every folder visited by the crawl, file processing on its
`files_url` runs to completion first, then deeper folder traversal on its
`folders_url` runs to completion, and both sub-tasks complete before the
folder's processing finishes (sequential, not concurrent, initiation). -/
theorem C9_subtasks_sequential_and_complete (env : Env) (parentPath : LocalPath)
    (id : Nat) (name foldersUrl filesUrl : String) (pid : Option Nat)
    (files : FilesListing) (subs : FoldersListing) (st : CrawlState) :
    ∃ deeper,
      (processFolderNode env parentPath
          (.mk id name foldersUrl filesUrl pid files subs) st).events
        = st.events
          ++ [Event.filesStart filesUrl, Event.filesEnd filesUrl,
              Event.foldersStart foldersUrl]
          ++ deeper ++ [Event.foldersEnd foldersUrl] := by
  set fp := nodeLocalPath env parentPath
    (FolderNode.mk id name foldersUrl filesUrl pid files subs) with hfp
  set s1 := ensureDir env fp st with hs1
  set s2 : CrawlState := { s1 with events := s1.events ++ [Event.filesStart filesUrl] } with hs2
  set s3 := processFiles env filesUrl fp files s2 with hs3
  set s4 : CrawlState :=
    { s3 with events := s3.events ++ [Event.filesEnd filesUrl, Event.foldersStart foldersUrl] } with hs4
  set s5 := processFolders env foldersUrl fp subs s4 with hs5
  have hnode : processFolderNode env parentPath
      (FolderNode.mk id name foldersUrl filesUrl pid files subs) st
      = { s5 with events := s5.events ++ [Event.foldersEnd foldersUrl] } := rfl
  obtain ⟨deeper, hdeep⟩ := (processFolders_authedExtends env foldersUrl fp subs s4).1
  rw [← hs5] at hdeep
  refine ⟨deeper, ?_⟩
  rw [hnode]
  show s5.events ++ [Event.foldersEnd foldersUrl] = _
  rw [hdeep]
  have h4 : s4.events = s3.events ++ [Event.filesEnd filesUrl, Event.foldersStart foldersUrl] := rfl
  have h3 : s3.events = s2.events := by rw [hs3, processFiles_events]
  have h2 : s2.events = s1.events ++ [Event.filesStart filesUrl] := rfl
  have h1 : s1.events = st.events := by rw [hs1, ensureDir_events]
  rw [h4, h3, h2, h1]
  simp [List.append_assoc]

end CanvasDownloader
